import Mathlib

/-!
Verification of the `nim_rfdiffusion_client.py` example script from the
nf-nim repository.  Strings are modelled as `List Char`; Python's
`str.split("\n")`, `str.startswith`, `"\n".join` are embedded as Lean
functions with the same semantics.  The script's effects (filesystem,
network, console) are modelled by explicit state passing plus an event
trace.
-/

namespace NfNim

/-- Convenience conversion from a Lean string literal to the `List Char`
representation used throughout the model. -/
def chars (s : String) : List Char := s.toList

/-- Model of Python `content.split("\n")`: splits at every newline,
keeping empty pieces; the empty string yields `[""]`. -/
def splitLines : List Char → List (List Char)
  | [] => [[]]
  | c :: cs =>
    match splitLines cs with
    | [] => [[c]]
    | l :: ls => if c = '\n' then [] :: l :: ls else (c :: l) :: ls

/-- Model of Python `"\n".join(pieces)`. -/
def joinLines : List (List Char) → List Char
  | [] => []
  | [l] => l
  | l :: ls => l ++ '\n' :: joinLines ls

/-- The four-character record tag the script filters on. -/
def atomTag : List Char := chars "ATOM"

/-- Model of the filter predicate `line.startswith("ATOM")` from
`get_reduced_pdb` (line 11 of the script). -/
def startsWithATOM (l : List Char) : Bool := atomTag.isPrefixOf l

/-- The pure filter-and-join step of `get_reduced_pdb` (lines 11-12):
split into lines, keep lines starting with `ATOM`, take the first 400,
rejoin with newlines. -/
def get_reduced_pdb (content : List Char) : List Char :=
  joinLines (((splitLines content).filter startsWithATOM).take 400)

/-- Number of lines starting with `ATOM` in a content string. -/
def countAtomLines (content : List Char) : Nat :=
  ((splitLines content).filter startsWithATOM).length

/-- Number of lines of a string: the empty string has zero lines,
otherwise the number of newline-separated pieces. -/
def numLines (s : List Char) : Nat :=
  if s = [] then 0 else (splitLines s).length

/-- The list of lines of a string: empty for the empty string, otherwise
its newline-separated pieces. -/
def linesOf (s : List Char) : List (List Char) :=
  if s = [] then [] else splitLines s

theorem splitLines_ne_nil (s : List Char) : splitLines s ≠ [] := by
  cases s with
  | nil => simp [splitLines]
  | cons c cs =>
    cases h : splitLines cs with
    | nil => simp [splitLines, h]
    | cons l ls =>
      simp only [splitLines, h]
      split <;> simp

theorem newline_not_mem_splitLines (s : List Char) :
    ∀ l ∈ splitLines s, '\n' ∉ l := by
  induction s with
  | nil => intro l hl; simp [splitLines] at hl; simp [hl]
  | cons c cs ih =>
    intro l hl
    cases h : splitLines cs with
    | nil => exact absurd h (splitLines_ne_nil cs)
    | cons p ps =>
      simp only [splitLines, h] at hl
      by_cases hc : c = '\n'
      · simp [hc] at hl
        rcases hl with hl | hl | hl
        · simp [hl]
        · exact ih l (h ▸ (hl ▸ List.mem_cons_self p ps))
        · exact ih l (h ▸ List.mem_cons_of_mem p hl)
      · simp [hc] at hl
        rcases hl with hl | hl
        · subst hl
          intro hmem
          rcases List.mem_cons.mp hmem with h1 | h1
          · exact hc h1.symm
          · exact ih p (h ▸ List.mem_cons_self p ps) h1
        · exact ih l (h ▸ List.mem_cons_of_mem p hl)

theorem splitLines_append_of_no_newline (a : List Char) (r : List Char)
    (ha : '\n' ∉ a) :
    splitLines (a ++ r) =
      (a ++ (splitLines r).headD []) :: (splitLines r).tail := by
  induction a with
  | nil =>
    cases h : splitLines r with
    | nil => exact absurd h (splitLines_ne_nil r)
    | cons p ps => simp [h]
  | cons c a' ih =>
    have hc : c ≠ '\n' := fun h => ha (h ▸ List.mem_cons_self c a')
    have ha' : '\n' ∉ a' := fun h => ha (List.mem_cons_of_mem c h)
    have ihr := ih ha'
    simp only [List.cons_append, splitLines, List.append_eq]
    rw [ihr]
    simp [hc]

theorem splitLines_of_no_newline (l : List Char) (hl : '\n' ∉ l) :
    splitLines l = [l] := by
  have h := splitLines_append_of_no_newline l [] hl
  simpa [splitLines] using h

theorem splitLines_joinLines (L : List (List Char)) (hne : L ≠ [])
    (hnl : ∀ l ∈ L, '\n' ∉ l) :
    splitLines (joinLines L) = L := by
  induction L with
  | nil => exact absurd rfl hne
  | cons l ls ih =>
    cases ls with
    | nil =>
      simp only [joinLines]
      exact splitLines_of_no_newline l (hnl l (List.mem_cons_self l []))
    | cons l' ls' =>
      have hl : '\n' ∉ l := hnl l (List.mem_cons_self l (l' :: ls'))
      have hrest : ∀ x ∈ l' :: ls', '\n' ∉ x :=
        fun x hx => hnl x (List.mem_cons_of_mem l hx)
      have hjoin : joinLines (l :: l' :: ls') = l ++ '\n' :: joinLines (l' :: ls') := rfl
      rw [hjoin, splitLines_append_of_no_newline l _ hl]
      have hsplit : splitLines ('\n' :: joinLines (l' :: ls')) =
          [] :: splitLines (joinLines (l' :: ls')) := by
        cases h : splitLines (joinLines (l' :: ls')) with
        | nil => exact absurd h (splitLines_ne_nil _)
        | cons p ps => simp [splitLines, h]
      rw [hsplit, ih (by simp) hrest]
      simp

theorem joinLines_ne_nil (L : List (List Char)) (hne : L ≠ [])
    (hhead : ∀ l ∈ L, l ≠ []) : joinLines L ≠ [] := by
  cases L with
  | nil => exact absurd rfl hne
  | cons l ls =>
    cases ls with
    | nil =>
      simpa [joinLines] using hhead l (List.mem_cons_self l [])
    | cons l' ls' =>
      show l ++ '\n' :: joinLines (l' :: ls') ≠ []
      simp

theorem startsWithATOM_ne_nil (l : List Char) (h : startsWithATOM l = true) :
    l ≠ [] := by
  intro hnil
  subst hnil
  simp [startsWithATOM, atomTag, chars, List.isPrefixOf] at h

/-- The filtered-and-truncated list of lines underlying `get_reduced_pdb`. -/
def truncatedAtomLines (content : List Char) : List (List Char) :=
  ((splitLines content).filter startsWithATOM).take 400

theorem truncatedAtomLines_no_newline (content : List Char) :
    ∀ l ∈ truncatedAtomLines content, '\n' ∉ l := by
  intro l hl
  have hmem : l ∈ splitLines content :=
    List.Sublist.mem hl
      (((List.take_sublist 400 _)).trans (List.filter_sublist _))
  exact newline_not_mem_splitLines content l hmem

theorem truncatedAtomLines_startsWith (content : List Char) :
    ∀ l ∈ truncatedAtomLines content, startsWithATOM l = true := by
  intro l hl
  have hmem : l ∈ (splitLines content).filter startsWithATOM :=
    List.Sublist.mem hl (List.take_sublist 400 _)
  exact (List.mem_filter.mp hmem).2

theorem truncatedAtomLines_ne_nil_mem (content : List Char) :
    ∀ l ∈ truncatedAtomLines content, l ≠ [] :=
  fun l hl => startsWithATOM_ne_nil l (truncatedAtomLines_startsWith content l hl)

theorem linesOf_get_reduced_pdb (content : List Char) :
    linesOf (get_reduced_pdb content) = truncatedAtomLines content := by
  by_cases h : truncatedAtomLines content = []
  · have hred : get_reduced_pdb content = [] := by
      show joinLines (truncatedAtomLines content) = []
      rw [h]
      rfl
    rw [hred, h]
    simp [linesOf]
  · have hjoin : get_reduced_pdb content ≠ [] :=
      joinLines_ne_nil _ h (truncatedAtomLines_ne_nil_mem content)
    simp only [linesOf, get_reduced_pdb, truncatedAtomLines] at hjoin ⊢
    rw [if_neg hjoin]
    exact splitLines_joinLines _ h (truncatedAtomLines_no_newline content)

theorem numLines_eq_length_linesOf (s : List Char) :
    numLines s = (linesOf s).length := by
  by_cases h : s = [] <;> simp [numLines, linesOf, h]

theorem numLines_get_reduced_pdb (content : List Char) :
    numLines (get_reduced_pdb content) = min 400 (countAtomLines content) := by
  rw [numLines_eq_length_linesOf, linesOf_get_reduced_pdb]
  simp [truncatedAtomLines, countAtomLines, List.length_take]

theorem get_reduced_pdb_of_no_atom (content : List Char)
    (h : countAtomLines content = 0) : get_reduced_pdb content = [] := by
  have hfil : (splitLines content).filter startsWithATOM = [] :=
    List.length_eq_zero.mp h
  simp [get_reduced_pdb, hfil, joinLines]

/-! JSON values and the fixed request payload (lines 14-22 of the script). -/

/-- Shallow JSON value model: only the shapes the script builds or reads. -/
inductive JVal where
  | str : List Char → JVal
  | num : Int → JVal
  | arr : List JVal → JVal
  | obj : List (List Char × JVal) → JVal

/-- Keys of a JSON object, in order; empty for non-objects. -/
def objKeys : JVal → List (List Char)
  | .obj kvs => kvs.map Prod.fst
  | _ => []

/-- Field lookup in a JSON object, as Python `parsed[key]`;
`none` models the lookup raising (missing key or non-object). -/
def lookupKey : JVal → List Char → Option JVal
  | .obj kvs, k => kvs.lookup k
  | _, _ => none

/-- The fixed JSON body the script POSTs, parameterised by the reduced
structure text that fills `input_pdb`. -/
def requestBody (reduced : List Char) : JVal :=
  JVal.obj
    [ (chars "input_pdb", JVal.str reduced),
      (chars "contigs", JVal.str (chars "A20-60/0 50-100")),
      (chars "hotspot_res", JVal.arr
        [ JVal.str (chars "A50"), JVal.str (chars "A51"),
          JVal.str (chars "A52"), JVal.str (chars "A53"),
          JVal.str (chars "A54") ]),
      (chars "diffusion_steps", JVal.num 15) ]

theorem requestBody_keys (reduced : List Char) :
    objKeys (requestBody reduced) =
      [chars "input_pdb", chars "contigs", chars "hotspot_res",
       chars "diffusion_steps"] := rfl

theorem requestBody_input (reduced : List Char) :
    lookupKey (requestBody reduced) (chars "input_pdb") =
      some (JVal.str reduced) := by
  simp [lookupKey, requestBody, List.lookup]

/-! Effectful model of the script: filesystem as an association list,
network and JSON parsing as oracle functions, console and filesystem
side effects recorded in an event trace, crashes as an explicit flag. -/

/-- Filesystem state: filename to content, later writes shadow earlier. -/
structure FS where
  files : List (List Char × List Char)

/-- Model of reading a file; `none` when the file does not exist. -/
def FS.read (fs : FS) (n : List Char) : Option (List Char) :=
  fs.files.lookup n

/-- Model of `Path.exists()`. -/
def FS.exists (fs : FS) (n : List Char) : Bool := (fs.read n).isSome

/-- Model of `Path.write_text`: unconditional overwrite. -/
def FS.write (fs : FS) (n c : List Char) : FS := ⟨(n, c) :: fs.files⟩

theorem FS.read_write_self (fs : FS) (n c : List Char) :
    (fs.write n c).read n = some c := by
  simp [FS.read, FS.write, List.lookup]

theorem FS.read_write_other (fs : FS) (n m c : List Char) (h : ¬ n = m) :
    (fs.write m c).read n = fs.read n := by
  simp only [FS.read, FS.write, List.lookup]
  have hbeq : (n == m) = false := by simpa using h
  rw [hbeq]

/-- Observable parts of a `requests.Response`: its printed representation
and its raw body text. -/
structure Resp where
  rep : List Char
  text : List Char

/-- The script's environment: the two network calls and the JSON parser,
each returning `none` when the real call would raise. -/
structure Env where
  net_get : List Char → Option (List Char)
  net_post : JVal → Option Resp
  parseJson : List Char → Option JVal

/-- Observable events of a run, in order of occurrence. -/
inductive Event where
  | getReq : List Char → Event
  | postReq : JVal → Event
  | printEv : List (List Char) → Event
  | writeEv : List Char → List Char → Event

/-- Outcome of a run: final filesystem, event trace, and whether the
script terminated with an uncaught exception. -/
structure ScriptResult where
  fs : FS
  events : List Event
  crashed : Bool

/-- The structure file's fixed name. -/
def pdbName : List Char := chars "1R42.pdb"

/-- The fixed download URL for the structure file. -/
def rcsbUrl : List Char := chars "https://files.rcsb.org/download/1R42.pdb"

/-- The fixed output file name. -/
def outName : List Char := chars "output.pdb"

/-- The fixed response key holding the generated structure. -/
def outputKey : List Char := chars "output_pdb"

/-- The fixed label string passed to `print` (line 23). -/
def saveLabel : List Char := chars "Saving to output.pdb:\n"

/-- The literal ellipsis marker passed to `print` (line 23). -/
def dots : List Char := chars "..."

/-- Lines 8-10 of the script: download the structure file only when it is
absent; `none` models the GET raising. -/
def ensureLocalStructureFile (env : Env) (fs : FS) :
    Option (FS × List Event) :=
  if fs.exists pdbName then some (fs, [])
  else
    match env.net_get rcsbUrl with
    | none => none
    | some body =>
      some (fs.write pdbName body,
        [Event.getReq rcsbUrl, Event.writeEv pdbName body])

/-- Line 24 of the script: look up `output_pdb` in the parsed response
and write it to `output.pdb`; `none` models the lookup or write raising. -/
def persistOutput (fs : FS) (parsed : JVal) : Option FS :=
  match lookupKey parsed outputKey with
  | some (JVal.str v) => some (fs.write outName v)
  | _ => none

/-- Last step of line 24: after a successful parse, look up `output_pdb`
and write it to `output.pdb`; anything else crashes. -/
def runAfterParse (fs1 : FS) (ev2 : List Event) (parsed : JVal) :
    ScriptResult :=
  match lookupKey parsed outputKey with
  | some (JVal.str v) =>
    ⟨fs1.write outName v, ev2 ++ [Event.writeEv outName v], false⟩
  | _ => ⟨fs1, ev2, true⟩

/-- The console preview of line 23: the response representation, the
label, the first 200 characters of the body, the ellipsis marker. -/
def previewOf (resp : Resp) : List (List Char) :=
  [resp.rep, saveLabel, resp.text.take 200, dots]

/-- Lines 14-24 after the payload is built: POST it, print the preview,
parse the response, persist. -/
def runAfterPost (env : Env) (fs1 : FS) (ev1 : List Event) (body : JVal) :
    ScriptResult :=
  match env.net_post body with
  | none => ⟨fs1, ev1 ++ [Event.postReq body], true⟩
  | some resp =>
    match env.parseJson resp.text with
    | none =>
      ⟨fs1, ev1 ++ [Event.postReq body, Event.printEv (previewOf resp)], true⟩
    | some parsed =>
      runAfterParse fs1
        (ev1 ++ [Event.postReq body, Event.printEv (previewOf resp)]) parsed

/-- The whole script (lines 7-24): ensure the structure file, build and
POST the payload, print the preview, parse the response and persist it.
Each `none` from the environment crashes the run at that point. -/
def runScript (env : Env) (fs0 : FS) : ScriptResult :=
  match ensureLocalStructureFile env fs0 with
  | none => ⟨fs0, [Event.getReq rcsbUrl], true⟩
  | some (fs1, ev1) =>
    match fs1.read pdbName with
    | none => ⟨fs1, ev1, true⟩
    | some content =>
      runAfterPost env fs1 ev1 (requestBody (get_reduced_pdb content))

theorem outName_ne_pdbName : ¬ outName = pdbName := by decide

theorem ensure_props (env : Env) (fs0 fs1 : FS) (ev1 : List Event)
    (h : ensureLocalStructureFile env fs0 = some (fs1, ev1)) :
    fs1.read outName = fs0.read outName ∧
      (∀ v, Event.writeEv outName v ∉ ev1) ∧ fs1.exists pdbName = true := by
  unfold ensureLocalStructureFile at h
  split at h
  · next hex =>
    simp only [Option.some.injEq, Prod.mk.injEq] at h
    obtain ⟨rfl, rfl⟩ := h
    exact ⟨rfl, by simp, hex⟩
  · next hex =>
    cases hg : env.net_get rcsbUrl with
    | none => rw [hg] at h; cases h
    | some body =>
      rw [hg] at h
      simp only [Option.some.injEq, Prod.mk.injEq] at h
      obtain ⟨rfl, rfl⟩ := h
      refine ⟨FS.read_write_other fs0 outName pdbName body outName_ne_pdbName,
        ?_, ?_⟩
      · intro v hv
        simp only [List.mem_cons, List.not_mem_nil, or_false] at hv
        rcases hv with hv | hv
        · cases hv
        · have : outName = pdbName := by
            injection hv
          exact outName_ne_pdbName this
      · simp [FS.exists, FS.read_write_self]

theorem runAfterParse_crashed_eq (fs1 : FS) (ev2 : List Event) (parsed : JVal)
    (h : (runAfterParse fs1 ev2 parsed).crashed = true) :
    runAfterParse fs1 ev2 parsed = ⟨fs1, ev2, true⟩ := by
  unfold runAfterParse at h ⊢
  split at h
  · cases h
  · rfl

theorem runAfterPost_crashed_props (env : Env) (fs1 : FS) (ev1 : List Event)
    (body : JVal) (h : (runAfterPost env fs1 ev1 body).crashed = true) :
    (runAfterPost env fs1 ev1 body).fs = fs1 ∧
      ∀ v, Event.writeEv outName v ∈ (runAfterPost env fs1 ev1 body).events →
        Event.writeEv outName v ∈ ev1 := by
  unfold runAfterPost at h ⊢
  split at h
  · next hpost =>
    refine ⟨rfl, fun v hv => ?_⟩
    simp only [List.mem_append, List.mem_cons, List.not_mem_nil, or_false] at hv
    rcases hv with hv | hv
    · exact hv
    · cases hv
  · next resp hpost =>
    split at h
    · next hjson =>
      refine ⟨rfl, fun v hv => ?_⟩
      simp only [List.mem_append, List.mem_cons, List.not_mem_nil, or_false] at hv
      rcases hv with hv | hv | hv
      · exact hv
      · cases hv
      · cases hv
    · next parsed hjson =>
      have heq := runAfterParse_crashed_eq fs1 _ parsed h
      rw [heq]
      refine ⟨rfl, fun v hv => ?_⟩
      simp only [List.mem_append, List.mem_cons, List.not_mem_nil, or_false] at hv
      rcases hv with hv | hv | hv
      · exact hv
      · cases hv
      · cases hv

theorem runScript_crashed_props (env : Env) (fs0 : FS)
    (h : (runScript env fs0).crashed = true) :
    (runScript env fs0).fs.read outName = fs0.read outName ∧
      ∀ v, Event.writeEv outName v ∉ (runScript env fs0).events := by
  unfold runScript at h ⊢
  split at h
  · next hens =>
    exact ⟨rfl, by intro v hv; simp at hv⟩
  · next fs1 ev1 hens =>
    obtain ⟨hout, hev1, _⟩ := ensure_props env fs0 fs1 ev1 hens
    split at h
    · next hread =>
      exact ⟨hout, fun v hv => hev1 v hv⟩
    · next content hread =>
      obtain ⟨hfs, hev⟩ := runAfterPost_crashed_props env fs1 ev1 _ h
      refine ⟨?_, fun v hv => hev1 v (hev v hv)⟩
      rw [hfs]
      exact hout

theorem runScript_success_eq (env : Env) (fs0 fs1 : FS) (ev1 : List Event)
    (content : List Char) (resp : Resp) (parsed : JVal) (v : List Char)
    (hE : ensureLocalStructureFile env fs0 = some (fs1, ev1))
    (hR : fs1.read pdbName = some content)
    (hP : env.net_post (requestBody (get_reduced_pdb content)) = some resp)
    (hJ : env.parseJson resp.text = some parsed)
    (hL : lookupKey parsed outputKey = some (JVal.str v)) :
    runScript env fs0 =
      ⟨fs1.write outName v,
        ev1 ++ [Event.postReq (requestBody (get_reduced_pdb content)),
                Event.printEv (previewOf resp), Event.writeEv outName v],
        false⟩ := by
  unfold runScript
  simp only [hE, hR]
  unfold runAfterPost
  simp only [hP, hJ]
  unfold runAfterParse
  simp only [hL]
  simp [List.append_assoc]

theorem runScript_crashes_on_post_failure (env : Env) (fs0 : FS)
    (hpost : ∀ b, env.net_post b = none) :
    (runScript env fs0).crashed = true := by
  unfold runScript
  split
  · rfl
  · split
    · rfl
    · unfold runAfterPost
      simp only [hpost]

theorem runScript_crashes_on_bad_json (env : Env) (fs0 : FS) (resp : Resp)
    (hpost : ∀ b, env.net_post b = some resp)
    (hjson : env.parseJson resp.text = none) :
    (runScript env fs0).crashed = true := by
  unfold runScript
  split
  · rfl
  · split
    · rfl
    · unfold runAfterPost
      simp only [hpost, hjson]

theorem runScript_crashes_on_missing_key (env : Env) (fs0 : FS)
    (resp : Resp) (parsed : JVal)
    (hpost : ∀ b, env.net_post b = some resp)
    (hjson : env.parseJson resp.text = some parsed)
    (hkey : lookupKey parsed outputKey = none) :
    (runScript env fs0).crashed = true := by
  unfold runScript
  split
  · rfl
  · split
    · rfl
    · unfold runAfterPost
      simp only [hpost, hjson]
      unfold runAfterParse
      simp only [hkey]

theorem print_mem_left_of_write_split (A : List Event) (x y : Event)
    (v out : List Char)
    (hx : ∀ w, x ≠ Event.writeEv outName w)
    (hy : ∀ w, y ≠ Event.writeEv outName w) :
    (∀ w, Event.writeEv outName w ∉ A) →
    ∀ l₁ l₂ : List Event,
      A ++ [x, y, Event.writeEv outName v] =
        l₁ ++ Event.writeEv outName out :: l₂ →
      y ∈ l₁ := by
  induction A with
  | nil =>
    intro _ l₁ l₂ h
    rcases l₁ with _ | ⟨a, l₁⟩
    · simp only [List.nil_append] at h
      injection h with h1 _
      exact absurd h1 (hx out)
    rcases l₁ with _ | ⟨b, l₁⟩
    · simp only [List.nil_append, List.cons_append] at h
      injection h with h1 h
      injection h with h2 _
      exact absurd h2 (hy out)
    · simp only [List.nil_append, List.cons_append] at h
      injection h with h1 h
      injection h with h2 _
      rw [h2]
      exact List.mem_cons_of_mem a (List.mem_cons_self b l₁)
  | cons a A' ih =>
    intro hA l₁ l₂ h
    rcases l₁ with _ | ⟨b, l₁⟩
    · simp only [List.cons_append, List.nil_append] at h
      injection h with h1 _
      exact ((hA out) (by rw [← h1]; exact List.mem_cons_self a A')).elim
    · simp only [List.cons_append] at h
      injection h with h1 h
      have hA' : ∀ w, Event.writeEv outName w ∉ A' :=
        fun w hw => hA w (List.mem_cons_of_mem a hw)
      exact List.mem_cons_of_mem b (ih hA' l₁ l₂ h)

theorem runScript_not_crashed_shape (env : Env) (fs0 : FS)
    (h : (runScript env fs0).crashed = false) :
    ∃ ev1 body resp v, (∀ w, Event.writeEv outName w ∉ ev1) ∧
      (runScript env fs0).events =
        ev1 ++ [Event.postReq body, Event.printEv (previewOf resp),
                Event.writeEv outName v] := by
  unfold runScript at h ⊢
  split at h
  · cases h
  · next fs1 ev1 hens =>
    obtain ⟨_, hev1, _⟩ := ensure_props env fs0 fs1 ev1 hens
    split at h
    · cases h
    · next content hread =>
      unfold runAfterPost at h ⊢
      split at h
      · cases h
      · next resp hpost =>
        split at h
        · cases h
        · next parsed hjson =>
          unfold runAfterParse at h ⊢
          split at h
          · next w hkey =>
            refine ⟨ev1, requestBody (get_reduced_pdb content), resp, w,
              hev1, ?_⟩
            simp [List.append_assoc]
          · cases h

/-! Concrete fixtures used by the witness theorems. -/

/-- Mock 500-line structure file: 450 `ATOM` records then 50 other lines. -/
def mockContent : List Char :=
  joinLines (List.replicate 450 (chars "ATOM  1") ++
    List.replicate 50 (chars "TER"))

/-- Filesystem already holding the mock structure file. -/
def mockFS : FS := ⟨[(pdbName, mockContent)]⟩

/-- Mock service response echoing back a fixed `output_pdb`. -/
def mockResp : Resp :=
  ⟨chars "<Response [200]>", chars "\x7b\"output_pdb\": \"MOCKDATA\"\x7d"⟩

/-- Environment for the end-to-end scenario: the POST answers with
`mockResp`, whose body parses to an object mapping `output_pdb` to
`MOCKDATA`. -/
def mockEnv : Env :=
  ⟨fun _ => none, fun _ => some mockResp,
   fun _ => some (JVal.obj [(outputKey, JVal.str (chars "MOCKDATA"))])⟩

theorem mock_splitLines :
    splitLines mockContent =
      List.replicate 450 (chars "ATOM  1") ++
        List.replicate 50 (chars "TER") := by
  apply splitLines_joinLines
  · intro hnil
    have hlen := congrArg List.length hnil
    simp only [List.length_append, List.length_replicate,
      List.length_nil] at hlen
    exact absurd hlen (by decide)
  · intro l hl
    rcases List.mem_append.mp hl with h | h
    · rw [List.eq_of_mem_replicate h]; decide
    · rw [List.eq_of_mem_replicate h]; decide

theorem mock_lines_500 : (splitLines mockContent).length = 500 := by
  rw [mock_splitLines, List.length_append, List.length_replicate,
    List.length_replicate]

theorem mock_atoms_450 : countAtomLines mockContent = 450 := by
  unfold countAtomLines
  rw [mock_splitLines, List.filter_append,
    List.filter_replicate_of_pos (by decide),
    List.filter_replicate_of_neg (by decide),
    List.append_nil, List.length_replicate]

/-- Small response for the temporal-ordering witness. -/
def tinyResp : Resp := ⟨chars "<Response [200]>", chars "RAW"⟩

/-- Small successful environment for the temporal-ordering witness. -/
def tinyEnv : Env :=
  ⟨fun _ => none, fun _ => some tinyResp,
   fun _ => some (JVal.obj [(outputKey, JVal.str (chars "OUT"))])⟩

/-- Small filesystem for the temporal-ordering witness. -/
def tinyFS : FS := ⟨[(pdbName, chars "ATOM A")]⟩

/-- Environment whose POST succeeds but whose body is not valid JSON. -/
def badJsonEnv : Env :=
  ⟨fun _ => some (chars "ATOM X"), fun _ => some tinyResp, fun _ => none⟩

/-- Environment that downloads `DATA` and never POSTs successfully. -/
def dlEnv : Env := ⟨fun _ => some (chars "DATA"), fun _ => none, fun _ => none⟩

/-! The ten claims. -/

/-- Claim C1: for every structure file content, the filter-and-join step
of `get_reduced_pdb` returns a string whose number of lines equals
`min 400 (number of input lines starting with "ATOM")`. -/
theorem truncation_bound (content : List Char) :
    numLines (get_reduced_pdb content) = min 400 (countAtomLines content) :=
  numLines_get_reduced_pdb content

/-- Claim C4: every line of the string returned by `get_reduced_pdb`
starts with `ATOM`, and the output's line sequence is a subsequence of
the input's line sequence (relative order preserved). -/
theorem filtering_and_order (content : List Char) :
    (∀ l ∈ linesOf (get_reduced_pdb content), startsWithATOM l = true) ∧
      List.Sublist (linesOf (get_reduced_pdb content))
        (splitLines content) := by
  rw [linesOf_get_reduced_pdb]
  refine ⟨truncatedAtomLines_startsWith content, ?_⟩
  exact (List.take_sublist 400 _).trans (List.filter_sublist _)

/-- Witness for C4 at a concrete two-line file. -/
theorem filtering_and_order_witness :
    startsWithATOM (chars "ATOM  N") = true ∧
      List.Sublist (linesOf (get_reduced_pdb (chars "ATOM  N\nEND")))
        (splitLines (chars "ATOM  N\nEND")) :=
  ⟨(filtering_and_order (chars "ATOM  N\nEND")).1 (chars "ATOM  N")
      (by decide),
   (filtering_and_order (chars "ATOM  N\nEND")).2⟩

/-- Claim C9: a structure file with zero `ATOM` lines yields the empty
string — not an error, not a single empty line — and the submitted
`input_pdb` field is the empty string. -/
theorem empty_when_no_atom_lines (content : List Char)
    (h : countAtomLines content = 0) :
    get_reduced_pdb content = [] ∧
      lookupKey (requestBody (get_reduced_pdb content)) (chars "input_pdb") =
        some (JVal.str []) := by
  have h0 := get_reduced_pdb_of_no_atom content h
  refine ⟨h0, ?_⟩
  rw [h0]
  exact requestBody_input []

/-- Witness for C9 at a concrete atom-free file. -/
theorem empty_when_no_atom_lines_witness :
    get_reduced_pdb (chars "HEADER\nEND") = [] ∧
      lookupKey (requestBody (get_reduced_pdb (chars "HEADER\nEND")))
        (chars "input_pdb") = some (JVal.str []) :=
  empty_when_no_atom_lines (chars "HEADER\nEND") (by decide)

/-- Claim C10: the record filter is a pure four-character test — a line
is kept exactly when its first four characters are `ATOM`, whatever
follows — and every output line is a line of the input, carried in full. -/
theorem pure_four_char_filter (content : List Char) :
    (∀ l ∈ splitLines content,
        (l ∈ (splitLines content).filter startsWithATOM ↔
          ∃ rest, l = atomTag ++ rest)) ∧
      ∀ l ∈ linesOf (get_reduced_pdb content), l ∈ splitLines content := by
  constructor
  · intro l hl
    rw [List.mem_filter]
    constructor
    · rintro ⟨-, hstart⟩
      have hpre : atomTag <+: l := by
        simpa [startsWithATOM] using hstart
      obtain ⟨t, ht⟩ := hpre
      exact ⟨t, ht.symm⟩
    · rintro ⟨rest, rfl⟩
      refine ⟨hl, ?_⟩
      simp [startsWithATOM]
  · intro l hl
    rw [linesOf_get_reduced_pdb] at hl
    exact List.Sublist.mem hl
      ((List.take_sublist 400 _).trans (List.filter_sublist _))

/-- Witness for C10: a line beginning `ATOMIC`, with a trailing carriage
return, is kept by the filter. -/
theorem pure_four_char_filter_witness :
    chars "ATOMIC X\rY" ∈
      (splitLines (chars "ATOMIC X\rY\nTER")).filter startsWithATOM :=
  ((pure_four_char_filter (chars "ATOMIC X\rY\nTER")).1 (chars "ATOMIC X\rY")
      (by decide)).mpr ⟨chars "IC X\rY", by decide⟩

/-- Claim C3: the JSON request body always has exactly the four keys
`input_pdb`, `contigs`, `hotspot_res`, `diffusion_steps`, with `contigs`
equal to `A20-60/0 50-100`, `hotspot_res` the fixed 5-element list, and
`diffusion_steps` equal to 15. -/
theorem submit_payload_shape (reduced : List Char) :
    objKeys (requestBody reduced) =
        [chars "input_pdb", chars "contigs", chars "hotspot_res",
         chars "diffusion_steps"] ∧
      lookupKey (requestBody reduced) (chars "input_pdb") =
        some (JVal.str reduced) ∧
      lookupKey (requestBody reduced) (chars "contigs") =
        some (JVal.str (chars "A20-60/0 50-100")) ∧
      lookupKey (requestBody reduced) (chars "hotspot_res") =
        some (JVal.arr
          [ JVal.str (chars "A50"), JVal.str (chars "A51"),
            JVal.str (chars "A52"), JVal.str (chars "A53"),
            JVal.str (chars "A54") ]) ∧
      lookupKey (requestBody reduced) (chars "diffusion_steps") =
        some (JVal.num 15) :=
  ⟨rfl, rfl, rfl, rfl, rfl⟩

/-- Claim C5: if the structure file exists, the guard makes no network
call and leaves the filesystem untouched; if it is absent and the GET
returns a body, the file afterwards exists and holds that body. -/
theorem idempotent_download_guard (env : Env) (fs : FS) :
    (fs.exists pdbName = true →
      ensureLocalStructureFile env fs = some (fs, [])) ∧
    (fs.exists pdbName = false →
      ∀ body, env.net_get rcsbUrl = some body →
        ensureLocalStructureFile env fs =
            some (fs.write pdbName body,
              [Event.getReq rcsbUrl, Event.writeEv pdbName body]) ∧
          (fs.write pdbName body).read pdbName = some body) := by
  constructor
  · intro hex
    unfold ensureLocalStructureFile
    rw [if_pos hex]
  · intro hex body hget
    unfold ensureLocalStructureFile
    rw [if_neg (by rw [hex]; simp), hget]
    exact ⟨rfl, FS.read_write_self fs pdbName body⟩

/-- Witness for C5: a present file is untouched; an absent one is
downloaded and written. -/
theorem idempotent_download_guard_witness :
    ensureLocalStructureFile dlEnv ⟨[(pdbName, chars "OLD")]⟩ =
        some (⟨[(pdbName, chars "OLD")]⟩, []) ∧
      ensureLocalStructureFile dlEnv ⟨[]⟩ =
        some (FS.write ⟨[]⟩ pdbName (chars "DATA"),
          [Event.getReq rcsbUrl, Event.writeEv pdbName (chars "DATA")]) :=
  ⟨(idempotent_download_guard dlEnv ⟨[(pdbName, chars "OLD")]⟩).1 rfl,
   ((idempotent_download_guard dlEnv ⟨[]⟩).2 rfl (chars "DATA") rfl).1⟩

/-- Claim C6: when the parsed response contains the key `output_pdb`
with a string value, the persist step writes exactly that value to
`output.pdb`, overwriting whatever was there. -/
theorem persist_output_overwrites (fs : FS) (parsed : JVal) (v : List Char)
    (h : lookupKey parsed outputKey = some (JVal.str v)) :
    persistOutput fs parsed = some (fs.write outName v) ∧
      (fs.write outName v).read outName = some v := by
  unfold persistOutput
  rw [h]
  exact ⟨rfl, FS.read_write_self fs outName v⟩

/-- Witness for C6: an existing `output.pdb` is overwritten with the
response value. -/
theorem persist_output_overwrites_witness :
    persistOutput ⟨[(outName, chars "OLD")]⟩
        (JVal.obj [(outputKey, JVal.str (chars "NEW"))]) =
      some (FS.write ⟨[(outName, chars "OLD")]⟩ outName (chars "NEW")) ∧
      (FS.write ⟨[(outName, chars "OLD")]⟩ outName (chars "NEW")).read
        outName = some (chars "NEW") :=
  persist_output_overwrites ⟨[(outName, chars "OLD")]⟩
    (JVal.obj [(outputKey, JVal.str (chars "NEW"))]) (chars "NEW") rfl

/-- Claim C7: every failure mode surfaces as a crash — a failing POST, a
response body that is not valid JSON, or a missing `output_pdb` key all
leave the run crashed — and a crashed run never writes `output.pdb`,
leaving any pre-existing file unchanged. -/
theorem failures_propagate_uncaught (env : Env) (fs0 : FS) :
    ((runScript env fs0).crashed = true →
      (runScript env fs0).fs.read outName = fs0.read outName ∧
        ∀ v, Event.writeEv outName v ∉ (runScript env fs0).events) ∧
    ((∀ b, env.net_post b = none) → (runScript env fs0).crashed = true) ∧
    (∀ resp, (∀ b, env.net_post b = some resp) →
      env.parseJson resp.text = none →
      (runScript env fs0).crashed = true) ∧
    (∀ resp parsed, (∀ b, env.net_post b = some resp) →
      env.parseJson resp.text = some parsed →
      lookupKey parsed outputKey = none →
      (runScript env fs0).crashed = true) :=
  ⟨runScript_crashed_props env fs0,
   runScript_crashes_on_post_failure env fs0,
   fun resp h1 h2 => runScript_crashes_on_bad_json env fs0 resp h1 h2,
   fun resp parsed h1 h2 h3 =>
     runScript_crashes_on_missing_key env fs0 resp parsed h1 h2 h3⟩

/-- Witness for C7: a run whose response body fails to parse crashes. -/
theorem failures_propagate_uncaught_witness :
    (runScript badJsonEnv ⟨[]⟩).crashed = true :=
  (failures_propagate_uncaught badJsonEnv ⟨[]⟩).2.2.1 tinyResp
    (fun _ => rfl) rfl

/-- Claim C8: whenever the trace writes `output.pdb`, a console preview —
response representation, fixed label, first 200 characters of the body,
ellipsis marker — was printed strictly earlier; `output.pdb` is never
written before this preview. -/
theorem preview_printed_before_write (env : Env) (fs0 : FS)
    (l₁ l₂ : List Event) (out : List Char)
    (h : (runScript env fs0).events =
      l₁ ++ Event.writeEv outName out :: l₂) :
    ∃ resp : Resp, Event.printEv (previewOf resp) ∈ l₁ := by
  by_cases hc : (runScript env fs0).crashed = true
  · obtain ⟨-, hnw⟩ := runScript_crashed_props env fs0 hc
    refine absurd ?_ (hnw out)
    rw [h]
    exact List.mem_append_right l₁ (List.mem_cons_self _ _)
  · have hc' : (runScript env fs0).crashed = false := by
      cases hcr : (runScript env fs0).crashed
      · rfl
      · exact absurd hcr hc
    obtain ⟨ev1, body, resp, v, hev1, hshape⟩ :=
      runScript_not_crashed_shape env fs0 hc'
    rw [hshape] at h
    refine ⟨resp, ?_⟩
    exact print_mem_left_of_write_split ev1 (Event.postReq body)
      (Event.printEv (previewOf resp)) v out
      (fun w heq => Event.noConfusion heq)
      (fun w heq => Event.noConfusion heq) hev1 l₁ l₂ h

/-- Witness for C8 on a concrete successful run: the preview print
precedes the `output.pdb` write in the trace. -/
theorem preview_printed_before_write_witness :
    ∃ resp : Resp, Event.printEv (previewOf resp) ∈
      [Event.postReq (requestBody (get_reduced_pdb (chars "ATOM A"))),
       Event.printEv (previewOf tinyResp)] :=
  preview_printed_before_write tinyEnv tinyFS
    [Event.postReq (requestBody (get_reduced_pdb (chars "ATOM A"))),
     Event.printEv (previewOf tinyResp)] [] (chars "OUT")
    (by
      rw [runScript_success_eq tinyEnv tinyFS tinyFS [] (chars "ATOM A")
        tinyResp (JVal.obj [(outputKey, JVal.str (chars "OUT"))])
        (chars "OUT") rfl rfl rfl rfl rfl]
      rfl)

/-- Claim C2: end-to-end — with the structure file present (500 lines,
450 `ATOM`) and the service answering `output_pdb = MOCKDATA`, the run
does not crash, `output.pdb` holds exactly `MOCKDATA`, and the submitted
`input_pdb` field has exactly 400 lines. -/
theorem end_to_end_scenario (env : Env) (fs0 : FS) (content : List Char)
    (resp : Resp) (hfile : fs0.read pdbName = some content)
    (hlines : (splitLines content).length = 500)
    (hatoms : countAtomLines content = 450)
    (hpost : env.net_post (requestBody (get_reduced_pdb content)) = some resp)
    (htext : resp.text = chars "\x7b\"output_pdb\": \"MOCKDATA\"\x7d")
    (hjson : env.parseJson resp.text =
      some (JVal.obj [(outputKey, JVal.str (chars "MOCKDATA"))])) :
    (runScript env fs0).crashed = false ∧
      (runScript env fs0).fs.read outName = some (chars "MOCKDATA") ∧
      ∃ body s, Event.postReq body ∈ (runScript env fs0).events ∧
        lookupKey body (chars "input_pdb") = some (JVal.str s) ∧
        numLines s = 400 := by
  have hex : fs0.exists pdbName = true := by
    simp [FS.exists, hfile]
  have hE : ensureLocalStructureFile env fs0 = some (fs0, []) := by
    unfold ensureLocalStructureFile
    rw [if_pos hex]
  have hrun := runScript_success_eq env fs0 fs0 [] content resp
    (JVal.obj [(outputKey, JVal.str (chars "MOCKDATA"))])
    (chars "MOCKDATA") hE hfile hpost hjson rfl
  rw [hrun]
  refine ⟨rfl, FS.read_write_self fs0 outName (chars "MOCKDATA"), ?_⟩
  refine ⟨requestBody (get_reduced_pdb content), get_reduced_pdb content,
    ?_, requestBody_input _, ?_⟩
  · simp
  · rw [numLines_get_reduced_pdb, hatoms]
    decide

/-- Witness for C2 at the mock 500-line file and echoing service. -/
theorem end_to_end_scenario_witness :
    (runScript mockEnv mockFS).crashed = false ∧
      (runScript mockEnv mockFS).fs.read outName =
        some (chars "MOCKDATA") ∧
      ∃ body s, Event.postReq body ∈ (runScript mockEnv mockFS).events ∧
        lookupKey body (chars "input_pdb") = some (JVal.str s) ∧
        numLines s = 400 :=
  end_to_end_scenario mockEnv mockFS mockContent mockResp rfl
    mock_lines_500 mock_atoms_450 rfl rfl rfl

end NfNim
